import Mathlib

/-!
Shallow embedding of the core of the afl-llvm-dict2file LLVM pass
(instrumentation/afl-llvm-dict2file.so.cc, function AFLdict2filePass::runOnModule).

The pass walks every call instruction of a module, classifies calls by callee
name and declared signature (strcmp, memcmp, strncmp, strcasecmp, strncasecmp
and the llvm.memcpy.p0i8.p0i8.i64 intrinsic), resolves operands to
compile-time-known byte sequences (direct constant, global-initializer GEP,
or a previously recorded local copy held in valueMap), reconciles the resolved
content with an explicit length argument, and renders qualifying entries as
escaped double-quoted lines appended to a dictionary file.

Bytes are modelled as Nat values (0..255 in practice), byte sequences as
List Nat, and size_t arithmetic is explicit where it matters (the wrap of
npos plus one in the embedded-zero truncation is modelled exactly).
The rendering is modelled at the level of the individual buffer stores,
including the index bookkeeping of the source's loop (j is not advanced
after a strcat) and the sprintf behavior on a plain, signed char (bytes at
or above 128 sign-extend and print as eight hex digits).
MIN_AUTO_EXTRA and MAX_AUTO_EXTRA come from the build configuration, so every
definition takes them as parameters named minLen and maxLen.
-/

/-- A byte sequence: ordered, explicit length, embedded zero bytes allowed. -/
abbrev ByteSeq := List Nat

/-- Shallow model of an LLVM type, as far as the signature checks of the pass
inspect it: integer types with a bit width, pointer types with a pointee, and
an opaque remainder. -/
inductive LType where
  | int : Nat → LType
  | pointer : LType → LType
  | opaque_ty : Nat → LType
deriving DecidableEq, Repr

/-- Models Type::isPointerTy. -/
def LType.isPointerTy : LType → Bool
  | .pointer _ => true
  | _ => false

/-- Models Type::isIntegerTy (any width). -/
def LType.isIntegerTy : LType → Bool
  | .int _ => true
  | _ => false

/-- Models Type::isIntegerTy(32). -/
def LType.isInt32 : LType → Bool
  | .int w => w == 32
  | _ => false

/-- Models IntegerType::getInt8PtrTy, the i8 pointer type. -/
def i8PtrTy : LType := .pointer (.int 8)

/-- Default type used to read a parameter list out of bounds; the signature
checks below only read a parameter after checking the parameter count, so the
default is never the deciding value. -/
def dTy : LType := .opaque_ty 0

/-- Models llvm::FunctionType: a return type and parameter types. -/
structure FunType where
  ret : LType
  params : List LType
deriving DecidableEq, Repr

/-- Signature check for strcmp (source lines 183-186): two parameters, i32
return, both parameters the same type and equal to the i8 pointer type. -/
def sigStrcmp (ft : FunType) : Bool :=
  ft.params.length == 2 && ft.ret.isInt32 &&
  (ft.params.getD 0 dTy == ft.params.getD 1 dTy) &&
  (ft.params.getD 0 dTy == i8PtrTy)

/-- Signature check for strcasecmp (source lines 187-190), same shape as the
strcmp check. -/
def sigStrcasecmp (ft : FunType) : Bool :=
  ft.params.length == 2 && ft.ret.isInt32 &&
  (ft.params.getD 0 dTy == ft.params.getD 1 dTy) &&
  (ft.params.getD 0 dTy == i8PtrTy)

/-- Signature check for memcmp (source lines 191-195): three parameters, i32
return, first two parameters pointer-typed (not necessarily equal), third an
integer. -/
def sigMemcmp (ft : FunType) : Bool :=
  ft.params.length == 3 && ft.ret.isInt32 &&
  (ft.params.getD 0 dTy).isPointerTy &&
  (ft.params.getD 1 dTy).isPointerTy &&
  (ft.params.getD 2 dTy).isIntegerTy

/-- Signature check for strncmp (source lines 196-201): three parameters, i32
return, first two parameters the same i8 pointer type, third an integer. -/
def sigStrncmp (ft : FunType) : Bool :=
  ft.params.length == 3 && ft.ret.isInt32 &&
  (ft.params.getD 0 dTy == ft.params.getD 1 dTy) &&
  (ft.params.getD 0 dTy == i8PtrTy) &&
  (ft.params.getD 2 dTy).isIntegerTy

/-- Signature check for strncasecmp (source lines 202-207), same shape as the
strncmp check. -/
def sigStrncasecmp (ft : FunType) : Bool :=
  ft.params.length == 3 && ft.ret.isInt32 &&
  (ft.params.getD 0 dTy == ft.params.getD 1 dTy) &&
  (ft.params.getD 0 dTy == i8PtrTy) &&
  (ft.params.getD 2 dTy).isIntegerTy

/-- An operand of a call instruction, as far as the pass inspects it.
The field ref is the identity of the underlying llvm::Value pointer, used as
the key of valueMap. The field gcsi models the external call
getConstantStringInfo (host framework constant folding, external to the
source): some bytes when the operand is a compile-time constant string, none
otherwise. The field gepInit models the chain of lines 253-276 / 329-349:
a ConstantExpr GEP with no notional over-indexing rooted at a GlobalVariable
whose initializer is a ConstantDataArray, carrying that array's bytes
(Array->getAsString()); none when any step of that chain fails. -/
structure Operand where
  ref : Nat
  gcsi : Option ByteSeq
  gepInit : Option ByteSeq
deriving DecidableEq, Repr

/-- A call instruction, as far as the pass inspects it. The field callee is
none when getCalledFunction() is null (indirect call); ccIsC is whether the
calling convention is llvm::CallingConv::C; arg2Int models
dyn_cast of ConstantInt on getArgOperand(2) followed by getZExtValue: some n
when the third argument is a constant integer, none otherwise. -/
structure CallInst where
  callee : Option (String × FunType)
  ccIsC : Bool
  arg0 : Operand
  arg1 : Operand
  arg2Int : Option Nat
deriving DecidableEq, Repr

/-- The six recognized call kinds. -/
inductive Kind where
  | strcmp | memcmp | strncmp | strcasecmp | strncasecmp | intMemcpy
deriving DecidableEq, Repr

/-- Call-site classification, source lines 164-211: bail out on a null callee
or a non-C calling convention; match the callee name against the fixed
vocabulary; for the five comparison names additionally require the declared
signature to check out. The memcpy intrinsic name has no signature check in
the source. A call matching nothing yields no candidate. -/
def classify (c : CallInst) : Option Kind :=
  match c.callee with
  | none => none
  | some (name, ft) =>
    if c.ccIsC = false then none
    else if name == "strcmp" then
      if sigStrcmp ft then some .strcmp else none
    else if name == "memcmp" then
      if sigMemcmp ft then some .memcmp else none
    else if name == "strncmp" then
      if sigStrncmp ft then some .strncmp else none
    else if name == "strcasecmp" then
      if sigStrcasecmp ft then some .strcasecmp else none
    else if name == "strncasecmp" then
      if sigStrncasecmp ft then some .strncasecmp else none
    else if name == "llvm.memcpy.p0i8.p0i8.i64" then some .intMemcpy
    else none

/-- The valueMap of the source (DenseMap from Value pointer to string): here an
association list where an insertion prepends, so lookup finds the most recent
binding. -/
abbrev VMap := List (Nat × ByteSeq)

/-- Lookup in valueMap: first (most recently inserted) matching key wins. -/
def VMap.find : VMap → Nat → Option ByteSeq
  | [], _ => none
  | (k, v) :: rest, key => if k = key then some v else VMap.find rest key

/-- Store into valueMap (source line 299): unconditional overwrite of any
earlier binding for the same key. -/
def VMap.set (m : VMap) (k : Nat) (v : ByteSeq) : VMap := (k, v) :: m

/-- Rule 1 of operand resolution, source lines 221-243: take the
getConstantStringInfo result, but treat an empty string as unresolved
(the TmpStr.empty() check). -/
def resolveConst (op : Operand) : Option ByteSeq :=
  match op.gcsi with
  | some s => if s = [] then none else some s
  | none => none

/-- Rules 1 and 2 combined: direct constant first, then the
global-initializer GEP chain (source lines 253-276 for operand 2,
lines 327-351 for operand 1). The GEP result has no emptiness check. -/
def resolveConstOrGep (op : Operand) : Option ByteSeq :=
  match resolveConst op with
  | some s => some s
  | none => op.gepInit

/-- Full resolution of a comparison operand: rules 1 and 2, then the valueMap
fallback (source lines 313-325 / 355-367), which requires a present and
non-empty stored string. -/
def resolveFull (m : VMap) (op : Operand) : Option ByteSeq :=
  match resolveConstOrGep op with
  | some s => some s
  | none =>
    match VMap.find m op.ref with
    | some s => if s = [] then none else some s
    | none => none

/-- Position of the first zero byte in a sequence (std::string::find of the
null character): none models npos. -/
def firstZero : ByteSeq → Option Nat
  | [] => none
  | b :: rest => if b = 0 then some 0 else (firstZero rest).map (· + 1)

/-- The terminator heuristic applied when storing a copy (source lines
284-297): if the third argument is a constant N and the resolved source has
length N - 1, append one zero byte. -/
def copyStored (ilen : Option Nat) (s : ByteSeq) : ByteSeq :=
  match ilen with
  | some n => if s.length + 1 = n then s ++ [0] else s
  | none => s

/-- Explicit-length adjustment for the three-argument kinds (source lines
381-397): when the length argument is a constant N, the effective length
becomes N, and when N equals the resolved length plus one a zero byte is
appended (flag addedNull). Other kinds pass through with the resolved
length. Result: (content, effective length, addedNull). -/
def lengthAdjust (kind : Kind) (ilen : Option Nat) (s : ByteSeq) :
    ByteSeq × Nat × Bool :=
  if kind = .memcmp ∨ kind = .strncmp ∨ kind = .strncasecmp then
    match ilen with
    | some n => if s.length + 1 = n then (s ++ [0], n, true) else (s, n, false)
    | none => (s, s.length, false)
  else (s, s.length, false)

/-- Terminator append plus embedded-zero truncation (source lines 401-415):
if no zero byte was added by the length adjustment, append one and bump the
effective length; then find the first zero byte and, if it sits strictly
before the last effective position, cut the effective length just past it;
finally take that many bytes of content (the substr call). The none branch of
the find models the size_t wrap of npos plus one to zero. -/
def nullTerminate (s : ByteSeq) (n : Nat) (addedNull : Bool) : ByteSeq × Nat :=
  let sn := if addedNull = false then (s ++ [0], n + 1) else (s, n)
  let m :=
    match firstZero sn.1 with
    | some p => if p + 1 < sn.2 then p + 1 else sn.2
    | none => if 0 < sn.2 then 0 else sn.2
  (sn.1.take m, m)

/-- Final length bookkeeping before emission (source lines 440-443): reset the
effective length to the content's true length when they differ, clamp to
maxLen (MAX_AUTO_EXTRA), and reject below minLen (MIN_AUTO_EXTRA). -/
def finalClamp (minLen maxLen : Nat) (s : ByteSeq) (n : Nat) :
    Option (ByteSeq × Nat) :=
  let n1 := if n ≠ s.length then s.length else n
  let n2 := if n1 > maxLen then maxLen else n1
  if n2 < minLen then none else some (s, n2)

/-- The length reconciliation pipeline for one resolved comparison operand
(source lines 379-443): explicit-length adjustment, then - for every kind
except memcmp - terminator append and embedded-zero truncation, then the
final clamp. Returns the (content, length) pair handed to the renderer, or
none when the candidate is rejected. -/
def reconcile (minLen maxLen : Nat) (kind : Kind) (ilen : Option Nat)
    (s : ByteSeq) : Option (ByteSeq × Nat) :=
  let la := lengthAdjust kind ilen s
  let sn := if kind ≠ .memcmp then nullTerminate la.1 la.2.1 la.2.2
            else (la.1, la.2.1)
  finalClamp minLen maxLen sn.1 sn.2

/-- Models isprint in the C locale: the printing characters are exactly the
bytes 32 through 126 (space through tilde). -/
def isPrintable (b : Nat) : Bool := decide (32 ≤ b ∧ b ≤ 126)

/-- One hexadecimal digit, lower case, as a byte value, as produced by the x
conversion of sprintf. -/
def hexDigit (n : Nat) : Nat := if n < 10 then 48 + n else 87 + n

/-- The characters sprintf produces for one content byte under the two-digit
lower-case x conversion applied to a plain (signed) char, as the source does
at line 459: bytes up to 127 keep their value and print as exactly two hex
digits; bytes 128 through 255 are sign-extended to a negative int whose
32-bit two's-complement pattern prints as eight hex digits (the conversion's
minimum width of two does not cap the length). -/
def escBytes (b : Nat) : List Nat :=
  if b < 128 then
    [92, 120, hexDigit (b / 16 % 16), hexDigit (b % 16)]
  else
    [92, 120] ++
      ((List.range 8).reverse.map fun k =>
        hexDigit ((4294967296 - (256 - b)) / 16 ^ k % 16))

/-- State of the fixed line buffer while one entry is rendered (source lines
445-471): the buffer contents as a total map from index to byte, the running
index j, the highest line index written so far, and the largest number of
bytes any single sprintf call has written into the adjacent 8-byte tmp
buffer (escape characters plus the terminating zero). -/
structure LineBuf where
  buf : Nat → Nat
  j : Nat
  hi : Nat
  tmpHi : Nat

/-- One store into the line buffer. -/
def writeAt (st : LineBuf) (i v : Nat) : LineBuf :=
  ⟨Function.update st.buf i v, st.j, max st.hi i, st.tmpHi⟩

/-- Consecutive stores starting at an index: the copy a strcat performs. -/
def writeList (st : LineBuf) (i : Nat) : List Nat → LineBuf
  | [] => st
  | v :: vs => writeList (writeAt st i v) (i + 1) vs

/-- One iteration of the rendering loop (source lines 448-466). A printable
byte is stored at index j and j advances (line 452). A zero byte in the
final position is skipped entirely (the negated test at line 456). Any other
byte takes the escape path of lines 458-460: line[j] is set to zero - making
the string length exactly j, since the opening quote and every printable
byte before index j are nonzero - then sprintf renders the escape into tmp
and strcat copies it to the indices from j on, plus a terminating zero. The
source never resynchronizes j after the strcat (there is no j update in that
branch), so j stays put and the escape is later overwritten by printable
stores or cut by the final truncation at line 468. -/
def renderStep (st : LineBuf) (isLast : Bool) (c : Nat) : LineBuf :=
  if isPrintable c then
    ⟨Function.update st.buf st.j c, st.j + 1, max st.hi st.j, st.tmpHi⟩
  else if isLast && c == 0 then st
  else
    let st1 := writeAt st st.j 0
    let st2 := writeList st1 st.j (escBytes c)
    let st3 := writeAt st2 (st.j + (escBytes c).length) 0
    ⟨st3.buf, st.j, st3.hi, max st3.tmpHi ((escBytes c).length + 1)⟩

/-- The rendering loop over the content bytes, tracking whether a byte is the
last one of the range (the i + 1 == optLen test). -/
def renderLoop (st : LineBuf) : ByteSeq → LineBuf
  | [] => st
  | [c] => renderStep st true c
  | c :: c2 :: rest => renderLoop (renderStep st false c) (c2 :: rest)

/-- The buffer right after strcpy of the opening quote (source line 446):
index 0 holds the quote, index 1 the terminating zero, and j is 1. -/
def renderInit : LineBuf := ⟨Function.update (fun _ => 0) 0 34, 1, 1, 0⟩

/-- The epilogue of the rendering (source lines 468-469): line[j] is set to
zero and strcat appends the closing quote and the newline at indices j and
j + 1 with a terminating zero at j + 2. -/
def renderEnd (st : LineBuf) : LineBuf :=
  writeAt (writeList (writeAt st st.j 0) st.j [34, 10]) (st.j + 2) 0

/-- The complete rendering of the first n content bytes into the line buffer
(source lines 445-469). -/
def renderRun (s : ByteSeq) (n : Nat) : LineBuf :=
  renderEnd (renderLoop renderInit (s.take n))

/-- The bytes the write call at line 470 hands to the file descriptor:
strlen(line) is j + 2 once the closing quote and the newline are in place,
so the written line is the buffer contents at indices 0 through j + 1. -/
def writtenLine (s : ByteSeq) (n : Nat) : List Nat :=
  (List.range ((renderRun s n).j + 2)).map (renderRun s n).buf

/-- Result of processing one call instruction: the updated valueMap and the
emitted candidate, if any. -/
structure StepOut where
  map : VMap
  emitted : Option (ByteSeq × Nat)
deriving DecidableEq, Repr

/-- Processing of one call instruction (source lines 151-473): classify;
for the memcpy intrinsic, resolve the source operand by rules 1 and 2 and, if
that succeeds, store the (possibly terminator-extended) bytes under the
destination operand's identity, never emitting anything; for the comparison
kinds, fully resolve both operands, skip the site unless exactly one operand
resolved, and run the resolved side through the reconciliation pipeline. -/
def processCall (minLen maxLen : Nat) (m : VMap) (c : CallInst) : StepOut :=
  match classify c with
  | none => ⟨m, none⟩
  | some k =>
    if k = .intMemcpy then
      match resolveConstOrGep c.arg1 with
      | some s => ⟨VMap.set m c.arg0.ref (copyStored c.arg2Int s), none⟩
      | none => ⟨m, none⟩
    else
      match resolveFull m c.arg0, resolveFull m c.arg1 with
      | some s, none => ⟨m, reconcile minLen maxLen k c.arg2Int s⟩
      | none, some s => ⟨m, reconcile minLen maxLen k c.arg2Int s⟩
      | _, _ => ⟨m, none⟩

/-- An instruction of a basic block: a call, or anything else (which the pass
ignores). -/
inductive Inst where
  | call : CallInst → Inst
  | other : Inst
deriving DecidableEq, Repr

/-- A function of the module: whether isIgnoreFunction holds for it, and its
instructions in program order (basic blocks flattened). -/
structure Func where
  ignored : Bool
  body : List Inst
deriving DecidableEq, Repr

/-- Observable resource and output events of a run: the single open of the
dictionary file, each written entry (with its rendered line), and each close
of the file descriptor. -/
inductive Event where
  | openFd : Event
  | writeEntry : List Nat → Event
  | closeFd : Event
deriving DecidableEq, Repr

/-- Events of an emission: one write when a candidate was emitted, nothing
otherwise. -/
def emitEvents : Option (ByteSeq × Nat) → List Event
  | some (s, n) => [Event.writeEntry (writtenLine s n)]
  | none => []

/-- Processing of a function body: thread the valueMap through the calls in
program order, collecting write events. -/
def bodyEvents (minLen maxLen : Nat) (m : VMap) : List Inst → VMap × List Event
  | [] => (m, [])
  | Inst.other :: rest => bodyEvents minLen maxLen m rest
  | Inst.call c :: rest =>
    let out := processCall minLen maxLen m c
    let r := bodyEvents minLen maxLen out.map rest
    (r.1, emitEvents out.emitted ++ r.2)

/-- Processing of one function (source lines 115-483): an ignored function is
skipped entirely; otherwise its body is scanned and then - still inside the
per-function loop - the file descriptor is closed (source line 481). -/
def processFunc (minLen maxLen : Nat) (m : VMap) (f : Func) :
    VMap × List Event :=
  if f.ignored then (m, [])
  else
    let r := bodyEvents minLen maxLen m f.body
    (r.1, r.2 ++ [Event.closeFd])

/-- Events of the functions of a module in order, threading the valueMap
across functions (it is declared outside the function loop, so bindings leak
across functions). -/
def moduleEvents (minLen maxLen : Nat) (m : VMap) : List Func → List Event
  | [] => []
  | f :: rest =>
    let r := processFunc minLen maxLen m f
    r.2 ++ moduleEvents minLen maxLen r.1 rest

/-- The whole run: one open of the dictionary file (source line 110), then the
events of all functions starting from an empty valueMap. -/
def runModule (minLen maxLen : Nat) (fs : List Func) : List Event :=
  Event.openFd :: moduleEvents minLen maxLen [] fs

/-- Number of close events in a trace. -/
def closeCount : List Event → Nat
  | [] => 0
  | Event.closeFd :: rest => closeCount rest + 1
  | _ :: rest => closeCount rest

/-! ## General lemmas about the pipeline -/

lemma finalClamp_some {minLen maxLen : Nat} {s : ByteSeq} {n : Nat}
    {s' : ByteSeq} {n' : Nat}
    (h : finalClamp minLen maxLen s n = some (s', n')) :
    s' = s ∧ minLen ≤ n' ∧ n' ≤ maxLen ∧ n' ≤ s.length := by
  simp only [finalClamp] at h
  split_ifs at h <;> simp at h <;> obtain ⟨hs, hn⟩ := h <;>
    exact ⟨hs.symm, by omega, by omega, by omega⟩

lemma reconcile_bounds {minLen maxLen : Nat} {k : Kind} {i : Option Nat}
    {s s' : ByteSeq} {n' : Nat}
    (h : reconcile minLen maxLen k i s = some (s', n')) :
    minLen ≤ n' ∧ n' ≤ maxLen ∧ n' ≤ s'.length := by
  unfold reconcile at h
  obtain ⟨hs, h1, h2, h3⟩ := finalClamp_some h
  exact ⟨h1, h2, hs ▸ h3⟩

lemma processCall_emitted {minLen maxLen : Nat} {m : VMap} {c : CallInst}
    {e : ByteSeq × Nat}
    (h : (processCall minLen maxLen m c).emitted = some e) :
    ∃ k s0, classify c = some k ∧ k ≠ Kind.intMemcpy ∧
      reconcile minLen maxLen k c.arg2Int s0 = some e := by
  unfold processCall at h
  cases hcl : classify c with
  | none => rw [hcl] at h; simp at h
  | some k =>
    rw [hcl] at h
    by_cases hk : k = Kind.intMemcpy
    · simp only [if_pos hk] at h
      cases hr : resolveConstOrGep c.arg1 <;> rw [hr] at h <;> simp at h
    · simp only [if_neg hk] at h
      cases h0 : resolveFull m c.arg0 <;> cases h1 : resolveFull m c.arg1 <;>
          rw [h0, h1] at h <;> simp at h
      · exact ⟨k, _, rfl, hk, h⟩
      · exact ⟨k, _, rfl, hk, h⟩

lemma VMap.find_set (m : VMap) (k : Nat) (v : ByteSeq) :
    VMap.find (VMap.set m k v) k = some v := by
  simp [VMap.set, VMap.find]

/-! ## Claim C1 -/

/-- Claim C1: for every comparison call site (a classified call of a kind
other than the memcpy intrinsic), a dictionary entry is produced only if
exactly one of the two operands resolves to a known byte sequence; when both
or neither resolve, the call site is skipped with the valueMap unchanged and
nothing emitted, and scanning continues. -/
theorem claim_c1_exactly_one_resolves (minLen maxLen : Nat) (m : VMap)
    (c : CallInst) (k : Kind) (hk : classify c = some k)
    (hmc : k ≠ Kind.intMemcpy) :
    ((processCall minLen maxLen m c).emitted.isSome = true →
      (resolveFull m c.arg0).isSome ≠ (resolveFull m c.arg1).isSome) ∧
    ((resolveFull m c.arg0).isSome = (resolveFull m c.arg1).isSome →
      processCall minLen maxLen m c = ⟨m, none⟩) := by
  unfold processCall
  rw [hk]
  simp only [if_neg hmc]
  cases h0 : resolveFull m c.arg0 <;> cases h1 : resolveFull m c.arg1 <;> simp

/-- Witness for claim C1 at a concrete strcmp call with one constant operand
(entry side) and at one with both operands constant (skip side). -/
def ftStrcmp2 : FunType := ⟨.int 32, [i8PtrTy, i8PtrTy]⟩

def opAbc : Operand := ⟨1, some [97, 98, 99], none⟩

def opVar : Operand := ⟨2, none, none⟩

def cmpAbc : CallInst := ⟨some ("strcmp", ftStrcmp2), true, opAbc, opVar, none⟩

def cmpBoth : CallInst := ⟨some ("strcmp", ftStrcmp2), true, opAbc, opAbc, none⟩

theorem claim_c1_witness :
    ((resolveFull ([] : VMap) cmpAbc.arg0).isSome
        ≠ (resolveFull ([] : VMap) cmpAbc.arg1).isSome) ∧
    processCall 3 32 [] cmpBoth = ⟨[], none⟩ :=
  ⟨(claim_c1_exactly_one_resolves 3 32 [] cmpAbc Kind.strcmp (by decide)
      (by decide)).1 (by decide),
   (claim_c1_exactly_one_resolves 3 32 [] cmpBoth Kind.strcmp (by decide)
      (by decide)).2 (by decide)⟩

/-! ## Claim C2 -/

/-- Claim C2: every emitted entry has its length n between minLen
(MIN_AUTO_EXTRA) and maxLen (MAX_AUTO_EXTRA) inclusive, and the entry renders
exactly its first n content bytes (content beyond maxLen is silently cut by
the clamp; candidates below minLen are rejected before emission). -/
theorem claim_c2_entry_length_bounds (minLen maxLen : Nat) (m : VMap)
    (c : CallInst) (s : ByteSeq) (n : Nat)
    (h : (processCall minLen maxLen m c).emitted = some (s, n)) :
    minLen ≤ n ∧ n ≤ maxLen ∧ (s.take n).length = n := by
  obtain ⟨k, s0, _, _, hr⟩ := processCall_emitted h
  obtain ⟨h1, h2, h3⟩ := reconcile_bounds hr
  refine ⟨h1, h2, ?_⟩
  rw [List.length_take]
  omega

theorem claim_c2_witness :
    3 ≤ 4 ∧ 4 ≤ 32 ∧ (([97, 98, 99, 0] : ByteSeq).take 4).length = 4 :=
  claim_c2_entry_length_bounds 3 32 [] cmpAbc [97, 98, 99, 0] 4 (by decide)

/-! ## Claim C6 -/

/-- Claim C6: the valueMap entry for a reference always reflects the most
recently observed copy into it. Storing is an unconditional overwrite, so the
lookup after a copy returns the newly stored content regardless of any
earlier binding; and a later comparison operand carrying that reference (and
no constant resolution of its own) resolves to exactly the stored bytes. -/
theorem claim_c6_most_recent_copy_wins :
    (∀ minLen maxLen : Nat, ∀ m : VMap, ∀ c : CallInst, ∀ s : ByteSeq,
      classify c = some Kind.intMemcpy → resolveConstOrGep c.arg1 = some s →
      (processCall minLen maxLen m c).map
          = VMap.set m c.arg0.ref (copyStored c.arg2Int s) ∧
      VMap.find (processCall minLen maxLen m c).map c.arg0.ref
          = some (copyStored c.arg2Int s)) ∧
    (∀ m : VMap, ∀ v : ByteSeq, ∀ op : Operand,
      op.gcsi = none → op.gepInit = none → v ≠ [] →
      resolveFull (VMap.set m op.ref v) op = some v) := by
  constructor
  · intro minLen maxLen m c s hc hr
    have hmap : (processCall minLen maxLen m c).map
        = VMap.set m c.arg0.ref (copyStored c.arg2Int s) := by
      simp [processCall, hc, hr]
    exact ⟨hmap, by rw [hmap, VMap.find_set]⟩
  · intro m v op h1 h2 hv
    simp [resolveFull, resolveConstOrGep, resolveConst, h1, h2,
          VMap.find_set, hv]

/-- Concrete objects for the copy-site witnesses: the destination reference 5
receives a copy of AAA (with its terminator, length argument 4) and then a
copy of ZZ (length argument 3). -/
def ftMemcpy : FunType := ⟨.opaque_ty 1, [i8PtrTy, i8PtrTy, .int 64]⟩

def opDst : Operand := ⟨5, none, none⟩

def opSrcA : Operand := ⟨6, some [65, 65, 65], none⟩

def opSrcZ : Operand := ⟨7, some [90, 90], none⟩

def copyA : CallInst :=
  ⟨some ("llvm.memcpy.p0i8.p0i8.i64", ftMemcpy), true, opDst, opSrcA, some 4⟩

def copyZ : CallInst :=
  ⟨some ("llvm.memcpy.p0i8.p0i8.i64", ftMemcpy), true, opDst, opSrcZ, some 3⟩

theorem claim_c6_witness :
    VMap.find (processCall 3 32 (processCall 3 32 [] copyA).map copyZ).map 5
        = some [90, 90, 0] ∧
    resolveFull (processCall 3 32 (processCall 3 32 [] copyA).map copyZ).map
        opDst = some [90, 90, 0] ∧
    some ([90, 90, 0] : ByteSeq) ≠ some ([65, 65, 65, 0] : ByteSeq) := by
  refine ⟨?_, ?_, by decide⟩
  · exact (claim_c6_most_recent_copy_wins.1 3 32
      (processCall 3 32 [] copyA).map copyZ [90, 90] (by decide) (by decide)).2
  · exact claim_c6_most_recent_copy_wins.2
      (processCall 3 32 [] copyA).map [90, 90, 0] opDst rfl rfl (by decide)

/-! ## Claim C7 -/

/-- Claim C7: at a copy site whose source resolves by the direct-constant or
global-initializer rule to bytes of length L, an explicit constant copy
length of L + 1 makes the pass append exactly one zero byte before storing
under the destination reference; and a copy site never emits a dictionary
entry. -/
theorem claim_c7_copy_terminator_no_entry :
    (∀ minLen maxLen : Nat, ∀ m : VMap, ∀ c : CallInst, ∀ s : ByteSeq,
      classify c = some Kind.intMemcpy → resolveConstOrGep c.arg1 = some s →
      c.arg2Int = some (s.length + 1) →
      (processCall minLen maxLen m c).map
          = VMap.set m c.arg0.ref (s ++ [0])) ∧
    (∀ minLen maxLen : Nat, ∀ m : VMap, ∀ c : CallInst,
      classify c = some Kind.intMemcpy →
      (processCall minLen maxLen m c).emitted = none) := by
  constructor
  · intro minLen maxLen m c s hc hr hn
    simp [processCall, hc, hr, copyStored, hn]
  · intro minLen maxLen m c hc
    unfold processCall
    rw [hc]
    simp only [if_pos rfl]
    cases hr : resolveConstOrGep c.arg1 <;> simp [hr]

theorem claim_c7_witness :
    (processCall 3 32 [] copyA).map = VMap.set [] 5 [65, 65, 65, 0] ∧
    (processCall 3 32 [] copyA).emitted = none :=
  ⟨claim_c7_copy_terminator_no_entry.1 3 32 [] copyA [65, 65, 65]
     (by decide) (by decide) (by decide),
   claim_c7_copy_terminator_no_entry.2 3 32 [] copyA (by decide)⟩

/-! ## Claim C9 -/

/-- Claim C9: a compile-time constant of length zero is treated as unresolved
by the direct-constant rule (the TmpStr.empty() check), and - as long as the
configured minimum is at least one - no emitted entry is ever empty. -/
theorem claim_c9_empty_never_entry :
    (∀ op : Operand, op.gcsi = some [] → resolveConst op = none) ∧
    (∀ minLen maxLen : Nat, ∀ m : VMap, ∀ c : CallInst, ∀ s : ByteSeq,
      ∀ n : Nat, 1 ≤ minLen →
      (processCall minLen maxLen m c).emitted = some (s, n) →
      s ≠ [] ∧ 1 ≤ n) := by
  constructor
  · intro op h
    simp [resolveConst, h]
  · intro minLen maxLen m c s n hmin h
    obtain ⟨k, s0, _, _, hr⟩ := processCall_emitted h
    obtain ⟨h1, h2, h3⟩ := reconcile_bounds hr
    constructor
    · intro hs
      subst hs
      simp at h3
      omega
    · omega

theorem claim_c9_witness :
    resolveConst ⟨3, some [], none⟩ = none ∧
    (([97, 98, 99, 0] : ByteSeq) ≠ [] ∧ 1 ≤ 4) :=
  ⟨claim_c9_empty_never_entry.1 ⟨3, some [], none⟩ rfl,
   claim_c9_empty_never_entry.2 3 32 [] cmpAbc [97, 98, 99, 0] 4
     (by decide) (by decide)⟩

/-! ## Claim C10 -/

/-- A strcmp call against a constant whose bytes include a value at or above
128 - the failing input for the rendering buffers. -/
def opHigh : Operand := ⟨8, some [97, 98, 200], none⟩

def cmpHigh : CallInst :=
  ⟨some ("strcmp", ftStrcmp2), true, opHigh, opVar, none⟩

/-- Claim C10, evaluated at the failing input: the entry with content bytes
97, 98, 200, 0 (length 4) is emitted, and rendering it makes the sprintf of
the sign-extended byte 200 produce a ten-character escape whose eleven bytes
(including the terminating zero) exceed the eight bytes of the adjacent tmp
buffer; the escape never reaches the written line either, which carries only
the two printable bytes. The claimed at-most-four-characters-per-byte
mechanism is therefore not the program's. -/
theorem claim_c10_tmp_overflow :
    (processCall 3 32 [] cmpHigh).emitted = some ([97, 98, 200, 0], 4) ∧
    (escBytes 200).length = 10 ∧
    (renderRun [97, 98, 200, 0] 4).tmpHi = 11 ∧
    8 < (renderRun [97, 98, 200, 0] 4).tmpHi ∧
    writtenLine [97, 98, 200, 0] 4 = [34, 97, 98, 34, 10] := by
  decide

/-! ## Claim C8 -/

lemma closeCount_append (a b : List Event) :
    closeCount (a ++ b) = closeCount a + closeCount b := by
  induction a with
  | nil => simp [closeCount]
  | cons e t ih =>
    cases e with
    | openFd => simp [closeCount, ih]
    | writeEntry l => simp [closeCount, ih]
    | closeFd => simp [closeCount, ih]; omega

lemma closeCount_emitEvents (e : Option (ByteSeq × Nat)) :
    closeCount (emitEvents e) = 0 := by
  cases e with
  | none => rfl
  | some p => cases p; rfl

lemma closeCount_bodyEvents (minLen maxLen : Nat) :
    ∀ (l : List Inst) (m : VMap),
      closeCount (bodyEvents minLen maxLen m l).2 = 0 := by
  intro l
  induction l with
  | nil => intro m; rfl
  | cons i t ih =>
    intro m
    cases i with
    | other => simpa [bodyEvents] using ih m
    | call c => simp [bodyEvents, closeCount_append, closeCount_emitEvents, ih]

lemma closeCount_processFunc (minLen maxLen : Nat) (m : VMap) (f : Func) :
    closeCount (processFunc minLen maxLen m f).2
      = if f.ignored then 0 else 1 := by
  unfold processFunc
  by_cases hf : f.ignored
  · simp [hf, closeCount]
  · simp [hf, closeCount_append, closeCount_bodyEvents, closeCount]

lemma closeCount_moduleEvents (minLen maxLen : Nat) :
    ∀ (fs : List Func) (m : VMap),
      closeCount (moduleEvents minLen maxLen m fs)
        = (fs.filter (fun f => !f.ignored)).length := by
  intro fs
  induction fs with
  | nil => intro m; rfl
  | cons f t ih =>
    intro m
    simp only [moduleEvents, closeCount_append, closeCount_processFunc, ih,
               List.filter_cons]
    by_cases hf : f.ignored <;> simp [hf, Nat.add_comm]

/-- Claim C8: the file descriptor is closed once after each scanned
(non-ignored) top-level function of the module - the close sits at the end of
each scanned function's event block - rather than exactly once after the
whole module; a module with two scanned functions sees two closes. -/
theorem claim_c8_close_per_unit :
    (∀ minLen maxLen : Nat, ∀ fs : List Func,
      closeCount (runModule minLen maxLen fs)
        = (fs.filter (fun f => !f.ignored)).length) ∧
    (∀ minLen maxLen : Nat, ∀ m : VMap, ∀ f : Func, f.ignored = false →
      ((processFunc minLen maxLen m f).2).getLast? = some Event.closeFd) := by
  constructor
  · intro minLen maxLen fs
    have h : closeCount (runModule minLen maxLen fs)
        = closeCount (moduleEvents minLen maxLen [] fs) := rfl
    rw [h, closeCount_moduleEvents]
  · intro minLen maxLen m f hf
    unfold processFunc
    rw [if_neg (by simp [hf])]
    simp

/-- A function with an empty body that is scanned (not ignored). -/
def fEmpty : Func := ⟨false, []⟩

theorem claim_c8_witness :
    closeCount (runModule 3 32 [fEmpty, fEmpty]) = 2 ∧
    closeCount (runModule 3 32 [fEmpty, fEmpty]) ≠ 1 ∧
    ((processFunc 3 32 [] fEmpty).2).getLast? = some Event.closeFd := by
  refine ⟨?_, by decide, claim_c8_close_per_unit.2 3 32 [] fEmpty rfl⟩
  exact (claim_c8_close_per_unit.1 3 32 [fEmpty, fEmpty]).trans (by decide)

/-! ## Claim C3 -/

lemma firstZero_exists_of_mem {s : ByteSeq} (h : 0 ∈ s) :
    ∃ p, firstZero s = some p := by
  induction s with
  | nil => cases h
  | cons b t ih =>
    by_cases hb : b = 0
    · exact ⟨0, by simp [firstZero, hb]⟩
    · have hm : 0 ∈ t := by
        rcases List.mem_cons.mp h with h0 | hm
        · exact absurd h0.symm hb
        · exact hm
      obtain ⟨p, hp⟩ := ih hm
      exact ⟨p + 1, by simp [firstZero, hb, hp]⟩

lemma firstZero_lt_ne {s : ByteSeq} {p : Nat} (h : firstZero s = some p) :
    ∀ i, i < p → s[i]? ≠ some 0 := by
  induction s generalizing p with
  | nil => simp [firstZero] at h
  | cons b t ih =>
    by_cases hb : b = 0
    · simp [firstZero, hb] at h
      subst h
      intro i hi
      exact absurd hi (by omega)
    · simp only [firstZero, if_neg hb, Option.map_eq_some'] at h
      obtain ⟨q, hq, hqp⟩ := h
      intro i hi
      cases i with
      | zero => simpa using hb
      | succ j =>
        have hj : j < q := by omega
        simpa using ih hq j hj

lemma take_firstZero_interior {t : ByteSeq} {p m : Nat}
    (hp : firstZero t = some p) (hm : m ≤ p + 1) :
    ∀ i, i + 1 < (t.take m).length → (t.take m)[i]? ≠ some 0 := by
  intro i hi
  have hlen : (t.take m).length = min m t.length := List.length_take m t
  have him : i < m := by omega
  rw [List.getElem?_take_of_lt him]
  exact firstZero_lt_ne hp i (by omega)

lemma nullTerminate_aux {t : ByteSeq} {nn : Nat} (h0 : 0 ∈ t) :
    ∀ i, i + 1 < (t.take (match firstZero t with
        | some p => if p + 1 < nn then p + 1 else nn
        | none => if 0 < nn then 0 else nn)).length →
      (t.take (match firstZero t with
        | some p => if p + 1 < nn then p + 1 else nn
        | none => if 0 < nn then 0 else nn))[i]? ≠ some 0 := by
  obtain ⟨p, hp⟩ := firstZero_exists_of_mem h0
  simp only [hp]
  by_cases hlt : p + 1 < nn
  · simp only [if_pos hlt]
    exact take_firstZero_interior hp (Nat.le_refl _)
  · simp only [if_neg hlt]
    exact take_firstZero_interior hp (by omega)

lemma nullTerminate_no_interior (s : ByteSeq) (n : Nat) (a : Bool)
    (h0 : a = true → 0 ∈ s) :
    ∀ i, i + 1 < (nullTerminate s n a).1.length →
      (nullTerminate s n a).1[i]? ≠ some 0 := by
  cases a with
  | false => exact nullTerminate_aux (List.mem_append_right s (by simp))
  | true => exact nullTerminate_aux (h0 rfl)

lemma lengthAdjust_addedNull {k : Kind} {ilen : Option Nat} {s : ByteSeq}
    (h : (lengthAdjust k ilen s).2.2 = true) :
    ∃ u, (lengthAdjust k ilen s).1 = u ++ [0] := by
  by_cases hk : k = Kind.memcmp ∨ k = Kind.strncmp ∨ k = Kind.strncasecmp
  · cases ilen with
    | none => simp [lengthAdjust, hk] at h
    | some nn =>
      by_cases hl : s.length + 1 = nn
      · exact ⟨s, by simp [lengthAdjust, hk, hl]⟩
      · simp [lengthAdjust, hk, hl] at h
  · simp [lengthAdjust, hk] at h

lemma lengthAdjust_fst (k : Kind) (ilen : Option Nat) (s : ByteSeq) :
    (lengthAdjust k ilen s).1 = s ∨ (lengthAdjust k ilen s).1 = s ++ [0] := by
  by_cases hk : k = Kind.memcmp ∨ k = Kind.strncmp ∨ k = Kind.strncasecmp
  · cases ilen with
    | none => exact Or.inl (by simp [lengthAdjust, hk])
    | some nn =>
      by_cases hl : s.length + 1 = nn
      · exact Or.inr (by simp [lengthAdjust, hk, hl])
      · exact Or.inl (by simp [lengthAdjust, hk, hl])
  · exact Or.inl (by simp [lengthAdjust, hk])

/-- Counterexample to claim C3 as stated: for the bounded kind strncmp (whose
explicit length argument here is not a constant), the pass does apply the
terminator append and the embedded-zero truncation, cutting the resolved
content just past its embedded zero and rejecting nothing else - whereas the
claim says bounded kinds are left untouched by these steps, which would keep
the full five-byte content. -/
theorem claim_c3_counterexample :
    reconcile 3 32 Kind.strncmp none [97, 98, 0, 99, 100]
        = some ([97, 98, 0], 3) ∧
    reconcile 3 32 Kind.strncmp none [97, 98, 0, 99, 100]
        ≠ some ([97, 98, 0, 99, 100], 5) := by decide

/-- Claim C3 (amended): the terminator-append step (when none was added by
the N equals L plus one rule) and the embedded-zero truncation step are
applied for every comparison kind except memcmp - that is, for exact-compare,
case-insensitive exact-compare, bounded-compare and case-insensitive
bounded-compare alike - and not for memcmp. Consequently, for the four
non-memcmp kinds every emitted candidate's content has no zero byte before
its final position, while for memcmp the content is never truncated: it
leaves the pipeline as the resolved bytes, at most extended by the one
zero byte of the explicit-length heuristic. -/
theorem claim_c3_terminator_all_but_memcmp :
    (∀ minLen maxLen : Nat, ∀ k : Kind, ∀ ilen : Option Nat,
      ∀ s s' : ByteSeq, ∀ n' : Nat,
      (k = Kind.strcmp ∨ k = Kind.strcasecmp ∨ k = Kind.strncmp ∨
        k = Kind.strncasecmp) →
      reconcile minLen maxLen k ilen s = some (s', n') →
      ∀ i : Nat, i + 1 < s'.length → s'[i]? ≠ some 0) ∧
    (∀ minLen maxLen : Nat, ∀ ilen : Option Nat, ∀ s s' : ByteSeq, ∀ n' : Nat,
      reconcile minLen maxLen Kind.memcmp ilen s = some (s', n') →
      s' = s ∨ s' = s ++ [0]) := by
  constructor
  · intro minLen maxLen k ilen s s' n' hk hrec
    have hkm : k ≠ Kind.memcmp := by
      rcases hk with h | h | h | h <;> subst h <;> decide
    unfold reconcile at hrec
    simp only [if_pos hkm] at hrec
    obtain ⟨hs, -, -, -⟩ := finalClamp_some hrec
    rw [hs]
    refine nullTerminate_no_interior _ _ _ ?_
    intro hC
    obtain ⟨u, hu⟩ := lengthAdjust_addedNull hC
    rw [hu]
    exact List.mem_append_right u (by simp)
  · intro minLen maxLen ilen s s' n' hrec
    unfold reconcile at hrec
    simp only
      [if_neg (show ¬(Kind.memcmp ≠ Kind.memcmp) from fun h => h rfl)] at hrec
    obtain ⟨hs, -, -, -⟩ := finalClamp_some hrec
    rw [hs]
    exact lengthAdjust_fst Kind.memcmp ilen s

theorem claim_c3_witness :
    (([97, 98, 0] : ByteSeq)[0]? ≠ some 0) ∧
    (([97, 98, 99, 0] : ByteSeq) = [97, 98, 99] ∨
      ([97, 98, 99, 0] : ByteSeq) = [97, 98, 99] ++ [0]) :=
  ⟨claim_c3_terminator_all_but_memcmp.1 3 32 Kind.strncmp none
     [97, 98, 0, 99, 100] [97, 98, 0] 3 (Or.inr (Or.inr (Or.inl rfl)))
     (by decide) 0 (by decide),
   claim_c3_terminator_all_but_memcmp.2 3 32 (some 4) [97, 98, 99]
     [97, 98, 99, 0] 4 (by decide)⟩

/-! ## Claim C4 -/

/-- Modelled from the spec: the rendering rule exactly as claim C4 states it,
bytes 33 through 126 verbatim, a zero byte in the final position dropped,
every other byte a surviving two-hex-digit escape. Defined only to be
compared against the line the source actually writes. -/
def renderByteClaimedC4 (isLast : Bool) (b : Nat) : List Nat :=
  if 33 ≤ b ∧ b ≤ 126 then [b]
  else if isLast && b == 0 then []
  else [92, 120, hexDigit (b / 16 % 16), hexDigit (b % 16)]

/-- Modelled from the spec: byte-range rendering under claim C4's rule. -/
def renderBytesClaimedC4 : ByteSeq → List Nat
  | [] => []
  | [b] => renderByteClaimedC4 true b
  | b :: b2 :: rest =>
    renderByteClaimedC4 false b ++ renderBytesClaimedC4 (b2 :: rest)

/-- Modelled from the spec: the full output line under claim C4's rule. -/
def renderLineClaimedC4 (s : ByteSeq) (n : Nat) : List Nat :=
  34 :: renderBytesClaimedC4 (s.take n) ++ [34, 10]

/-- Counterexample to claim C4 as stated: the content bytes of the letter a,
a space (byte 32) and the control byte 1 are written as the line consisting
only of quote, a, space, quote, newline. The space appears verbatim - the
isprint of line 450 accepts it, though the claimed verbatim range starts at
33 - and the control byte contributes nothing at all: its escape is
assembled but j is never advanced past it, so the closing quote and newline
overwrite it. Under the claimed rule the line would contain escapes for both
the space and the control byte. -/
theorem claim_c4_counterexample :
    writtenLine [97, 32, 1] 3 = [34, 97, 32, 34, 10] ∧
    writtenLine [97, 32, 1] 3 ≠ renderLineClaimedC4 [97, 32, 1] 3 := by
  decide

lemma writeAt_buf_ne {st : LineBuf} {i v p : Nat} (h : p ≠ i) :
    (writeAt st i v).buf p = st.buf p := by
  show Function.update st.buf i v p = st.buf p
  exact Function.update_noteq h v st.buf

lemma writeAt_buf_self (st : LineBuf) (i v : Nat) :
    (writeAt st i v).buf i = v := by
  show Function.update st.buf i v i = v
  exact Function.update_same i v st.buf

lemma writeList_buf_lt : ∀ (vs : List Nat) (st : LineBuf) (i p : Nat),
    p < i → (writeList st i vs).buf p = st.buf p := by
  intro vs
  induction vs with
  | nil => intro st i p h; rfl
  | cons v t ih =>
    intro st i p h
    rw [show writeList st i (v :: t) = writeList (writeAt st i v) (i + 1) t
          from rfl]
    rw [ih _ _ _ (by omega)]
    exact writeAt_buf_ne (by omega)

lemma map_range_update (f : Nat → Nat) (m i v : Nat) (h : m ≤ i) :
    (List.range m).map (Function.update f i v) = (List.range m).map f := by
  apply List.map_congr_left
  intro p hp
  have hpm : p < m := List.mem_range.mp hp
  have hpi : p ≠ i := by omega
  exact Function.update_noteq hpi v f

/-- The skipped-trailing-zero branch leaves the state untouched. -/
lemma renderStep_skip {fl : Bool} {c : Nat} (st : LineBuf)
    (hp : ¬isPrintable c = true) (hz : (fl && c == 0) = true) :
    renderStep st fl c = st := by
  simp [renderStep, hp, hz]

/-- The escape branch: line[j] zeroed, the sprintf output copied from index
j on with its terminating zero, j unchanged, and the tmp write count
recorded. -/
lemma renderStep_escape {fl : Bool} {c : Nat} (st : LineBuf)
    (hp : ¬isPrintable c = true) (hz : ¬(fl && c == 0) = true) :
    renderStep st fl c
      = ⟨(writeAt (writeList (writeAt st st.j 0) st.j (escBytes c))
            (st.j + (escBytes c).length) 0).buf, st.j,
         (writeAt (writeList (writeAt st st.j 0) st.j (escBytes c))
            (st.j + (escBytes c).length) 0).hi,
         max (writeAt (writeList (writeAt st st.j 0) st.j (escBytes c))
            (st.j + (escBytes c).length) 0).tmpHi
           ((escBytes c).length + 1)⟩ := by
  simp [renderStep, hp, hz]

/-- After one loop iteration the buffer prefix below the new j holds the old
prefix, extended by the byte itself exactly when it is printable: both
non-printable paths write only at indices at or above j and leave j
alone. -/
lemma renderStep_prefix (st : LineBuf) (fl : Bool) (c : Nat) :
    (List.range (renderStep st fl c).j).map (renderStep st fl c).buf
      = (List.range st.j).map st.buf
          ++ (if isPrintable c then [c] else []) := by
  by_cases hp : isPrintable c
  · simp only [renderStep, if_pos hp]
    rw [List.range_succ st.j, List.map_append,
        map_range_update st.buf st.j st.j c (Nat.le_refl _)]
    simp [Function.update_same, hp]
  · by_cases hz : (fl && c == 0) = true
    · rw [renderStep_skip st hp hz]
      simp [hp]
    · rw [renderStep_escape st hp hz]
      have hb : ∀ p, p < st.j →
          (writeAt (writeList (writeAt st st.j 0) st.j (escBytes c))
            (st.j + (escBytes c).length) 0).buf p = st.buf p := by
        intro p hpj
        rw [writeAt_buf_ne (by omega)]
        rw [writeList_buf_lt _ _ _ _ hpj]
        exact writeAt_buf_ne (by omega)
      rw [show (if isPrintable c then [c] else ([] : List Nat)) = []
            from by simp [hp]]
      rw [List.append_nil]
      apply List.map_congr_left
      intro p hpm
      exact hb p (List.mem_range.mp hpm)

/-- The loop writes the opening prefix followed by exactly the printable
bytes of the range; every non-printable byte - skipped trailing zero or
assembled escape - contributes nothing to the prefix below j. -/
lemma renderLoop_prefix : ∀ (l : ByteSeq) (st : LineBuf),
    (List.range (renderLoop st l).j).map (renderLoop st l).buf
      = (List.range st.j).map st.buf ++ l.filter isPrintable := by
  intro l
  induction l with
  | nil => intro st; simp [renderLoop]
  | cons c t ih =>
    intro st
    cases t with
    | nil =>
      rw [show renderLoop st [c] = renderStep st true c from rfl,
          renderStep_prefix]
      cases hp : isPrintable c <;> simp [List.filter_cons, hp]
    | cons c2 r =>
      rw [show renderLoop st (c :: c2 :: r)
            = renderLoop (renderStep st false c) (c2 :: r) from rfl,
          ih, renderStep_prefix]
      cases hp : isPrintable c <;>
        simp [List.filter_cons, hp, List.append_assoc]

/-- The epilogue writes the closing quote at j and the newline at j + 1 and
touches nothing below j. -/
lemma renderEnd_buf (st : LineBuf) :
    (renderEnd st).buf st.j = 34 ∧ (renderEnd st).buf (st.j + 1) = 10 ∧
    ∀ p, p < st.j → (renderEnd st).buf p = st.buf p := by
  refine ⟨?_, ?_, ?_⟩
  · show (writeAt (writeAt (writeAt (writeAt st st.j 0) st.j 34)
      (st.j + 1) 10) (st.j + 2) 0).buf st.j = 34
    rw [writeAt_buf_ne (by omega), writeAt_buf_ne (by omega)]
    exact writeAt_buf_self _ _ _
  · show (writeAt (writeAt (writeAt (writeAt st st.j 0) st.j 34)
      (st.j + 1) 10) (st.j + 2) 0).buf (st.j + 1) = 10
    rw [writeAt_buf_ne (by omega)]
    exact writeAt_buf_self _ _ _
  · intro p hp
    show (writeAt (writeAt (writeAt (writeAt st st.j 0) st.j 34)
      (st.j + 1) 10) (st.j + 2) 0).buf p = st.buf p
    rw [writeAt_buf_ne (by omega), writeAt_buf_ne (by omega),
        writeAt_buf_ne (by omega), writeAt_buf_ne (by omega)]

/-- Claim C4 (amended): the written rendering of every entry is a
double-quoted literal containing exactly the entry's printable bytes (the
C-locale isprint range 32 through 126, space included) verbatim and in
order, followed by the closing quote and a newline. Every other byte - zero
or not, in the final position or not - contributes nothing to the written
line: the escape sequences assembled for non-printable bytes are overwritten
by later printable stores or truncated away before the write, because the
index j is never advanced past them. -/
theorem claim_c4_written_line (s : ByteSeq) (n : Nat) :
    writtenLine s n = 34 :: ((s.take n).filter isPrintable) ++ [34, 10] := by
  have hloop := renderLoop_prefix (s.take n) renderInit
  have hbuf := renderEnd_buf (renderLoop renderInit (s.take n))
  have hinit : (List.range renderInit.j).map renderInit.buf = [34] := by
    decide
  rw [hinit] at hloop
  have hj : (renderRun s n).j = (renderLoop renderInit (s.take n)).j := rfl
  have hrun : renderRun s n = renderEnd (renderLoop renderInit (s.take n)) :=
    rfl
  rw [show writtenLine s n
        = (List.range ((renderRun s n).j + 2)).map (renderRun s n).buf
      from rfl, hj, hrun]
  rw [List.range_succ ((renderLoop renderInit (s.take n)).j + 1),
      List.range_succ (renderLoop renderInit (s.take n)).j,
      List.map_append, List.map_append]
  have hpre : (List.range (renderLoop renderInit (s.take n)).j).map
      (renderEnd (renderLoop renderInit (s.take n))).buf
        = [34] ++ (s.take n).filter isPrintable := by
    rw [← hloop]
    apply List.map_congr_left
    intro p hp
    exact hbuf.2.2 p (List.mem_range.mp hp)
  rw [hpre]
  simp only [List.map_cons, List.map_nil, hbuf.1, hbuf.2.1]
  simp [List.append_assoc]

/-! ## Claim C5 -/

lemma sigStrcmp_spec {ft : FunType} (h : sigStrcmp ft = true) :
    ft.params.length = 2 ∧ ft.ret.isInt32 = true ∧
    ft.params.getD 0 dTy = i8PtrTy ∧ ft.params.getD 1 dTy = i8PtrTy := by
  simp only [sigStrcmp, Bool.and_eq_true, beq_iff_eq] at h
  obtain ⟨⟨⟨h1, h2⟩, h3⟩, h4⟩ := h
  exact ⟨h1, h2, h4, by rw [← h3]; exact h4⟩

lemma sigStrcasecmp_spec {ft : FunType} (h : sigStrcasecmp ft = true) :
    ft.params.length = 2 ∧ ft.ret.isInt32 = true ∧
    ft.params.getD 0 dTy = i8PtrTy ∧ ft.params.getD 1 dTy = i8PtrTy := by
  simp only [sigStrcasecmp, Bool.and_eq_true, beq_iff_eq] at h
  obtain ⟨⟨⟨h1, h2⟩, h3⟩, h4⟩ := h
  exact ⟨h1, h2, h4, by rw [← h3]; exact h4⟩

lemma sigMemcmp_spec {ft : FunType} (h : sigMemcmp ft = true) :
    ft.params.length = 3 ∧ ft.ret.isInt32 = true ∧
    (ft.params.getD 0 dTy).isPointerTy = true ∧
    (ft.params.getD 1 dTy).isPointerTy = true ∧
    (ft.params.getD 2 dTy).isIntegerTy = true := by
  simp only [sigMemcmp, Bool.and_eq_true, beq_iff_eq] at h
  obtain ⟨⟨⟨⟨h1, h2⟩, h3⟩, h4⟩, h5⟩ := h
  exact ⟨h1, h2, h3, h4, h5⟩

lemma sigStrncmp_spec {ft : FunType} (h : sigStrncmp ft = true) :
    ft.params.length = 3 ∧ ft.ret.isInt32 = true ∧
    ft.params.getD 0 dTy = i8PtrTy ∧ ft.params.getD 1 dTy = i8PtrTy ∧
    (ft.params.getD 2 dTy).isIntegerTy = true := by
  simp only [sigStrncmp, Bool.and_eq_true, beq_iff_eq] at h
  obtain ⟨⟨⟨⟨h1, h2⟩, h3⟩, h4⟩, h5⟩ := h
  exact ⟨h1, h2, h4, by rw [← h3]; exact h4, h5⟩

lemma sigStrncasecmp_spec {ft : FunType} (h : sigStrncasecmp ft = true) :
    ft.params.length = 3 ∧ ft.ret.isInt32 = true ∧
    ft.params.getD 0 dTy = i8PtrTy ∧ ft.params.getD 1 dTy = i8PtrTy ∧
    (ft.params.getD 2 dTy).isIntegerTy = true := by
  simp only [sigStrncasecmp, Bool.and_eq_true, beq_iff_eq] at h
  obtain ⟨⟨⟨⟨h1, h2⟩, h3⟩, h4⟩, h5⟩ := h
  exact ⟨h1, h2, h4, by rw [← h3]; exact h4, h5⟩

lemma classify_some_cases {c : CallInst} {k : Kind}
    (h : classify c = some k) :
    ∃ name ft, c.callee = some (name, ft) ∧ c.ccIsC = true ∧
      ((k = Kind.strcmp ∧ sigStrcmp ft = true) ∨
       (k = Kind.memcmp ∧ sigMemcmp ft = true) ∨
       (k = Kind.strncmp ∧ sigStrncmp ft = true) ∨
       (k = Kind.strcasecmp ∧ sigStrcasecmp ft = true) ∨
       (k = Kind.strncasecmp ∧ sigStrncasecmp ft = true) ∨
       k = Kind.intMemcpy) := by
  cases hcb : c.callee with
  | none => simp [classify, hcb] at h
  | some p =>
    obtain ⟨name, ft⟩ := p
    simp only [classify, hcb] at h
    by_cases hcc : c.ccIsC = false
    · simp [hcc] at h
    · have hcct : c.ccIsC = true := by
        cases hb : c.ccIsC
        · exact absurd hb hcc
        · rfl
      rw [if_neg hcc] at h
      refine ⟨name, ft, rfl, hcct, ?_⟩
      split_ifs at h
      all_goals
        first
        | exact Option.noConfusion h
        | (cases h
           first
           | exact Or.inl ⟨rfl, by assumption⟩
           | exact Or.inr (Or.inl ⟨rfl, by assumption⟩)
           | exact Or.inr (Or.inr (Or.inl ⟨rfl, by assumption⟩))
           | exact Or.inr (Or.inr (Or.inr (Or.inl ⟨rfl, by assumption⟩)))
           | exact Or.inr (Or.inr (Or.inr (Or.inr
               (Or.inl ⟨rfl, by assumption⟩))))
           | exact Or.inr (Or.inr (Or.inr (Or.inr (Or.inr rfl)))))

/-- Claim C5 (amended): a call whose callee name matches a comparison kind
yields a candidate only if the declared signature checks out - a 32-bit
integer return type, two pointer-typed data parameters (for the strcmp,
strcasecmp, strncmp and strncasecmp kinds both must be the i8 pointer type,
hence identical; for memcmp both need only be pointer-typed, possibly
different), and a third integer length parameter for the bounded and memcmp
variants - while calls through unresolved targets or with a non-default
calling convention yield no candidate at all. -/
theorem claim_c5_signature_gate :
    (∀ c : CallInst, c.callee = none → classify c = none) ∧
    (∀ c : CallInst, c.ccIsC = false → classify c = none) ∧
    (∀ c : CallInst, ∀ name : String, ∀ ft : FunType, ∀ k : Kind,
      c.callee = some (name, ft) → classify c = some k →
      k ≠ Kind.intMemcpy →
      ft.ret.isInt32 = true ∧
      (ft.params.getD 0 dTy).isPointerTy = true ∧
      (ft.params.getD 1 dTy).isPointerTy = true ∧
      ((k = Kind.strcmp ∨ k = Kind.strcasecmp) → ft.params.length = 2) ∧
      ((k = Kind.memcmp ∨ k = Kind.strncmp ∨ k = Kind.strncasecmp) →
        ft.params.length = 3 ∧ (ft.params.getD 2 dTy).isIntegerTy = true) ∧
      (k ≠ Kind.memcmp →
        ft.params.getD 0 dTy = i8PtrTy ∧ ft.params.getD 1 dTy = i8PtrTy)) := by
  refine ⟨?_, ?_, ?_⟩
  · intro c h
    simp [classify, h]
  · intro c h
    cases hcb : c.callee with
    | none => simp [classify, hcb]
    | some p =>
      obtain ⟨name, ft⟩ := p
      simp [classify, hcb, h]
  · intro c name ft k hcb hcl hkm
    obtain ⟨name2, ft2, hcb2, hcc, hcase⟩ := classify_some_cases hcl
    rw [hcb] at hcb2
    injection hcb2 with hpair
    injection hpair with hn hft
    subst hft
    rcases hcase with ⟨rfl, hs⟩ | ⟨rfl, hs⟩ | ⟨rfl, hs⟩ | ⟨rfl, hs⟩ |
      ⟨rfl, hs⟩ | rfl
    · obtain ⟨hl, hr, h0, h1⟩ := sigStrcmp_spec hs
      refine ⟨hr, by rw [h0]; rfl, by rw [h1]; rfl, fun _ => hl, ?_, ?_⟩
      · rintro (h | h | h) <;> simp at h
      · intro _
        exact ⟨h0, h1⟩
    · obtain ⟨hl, hr, h0, h1, h2⟩ := sigMemcmp_spec hs
      refine ⟨hr, h0, h1, ?_, fun _ => ⟨hl, h2⟩, ?_⟩
      · rintro (h | h) <;> simp at h
      · intro hne
        exact absurd rfl hne
    · obtain ⟨hl, hr, h0, h1, h2⟩ := sigStrncmp_spec hs
      refine ⟨hr, by rw [h0]; rfl, by rw [h1]; rfl, ?_,
        fun _ => ⟨hl, h2⟩, fun _ => ⟨h0, h1⟩⟩
      rintro (h | h) <;> simp at h
    · obtain ⟨hl, hr, h0, h1⟩ := sigStrcasecmp_spec hs
      refine ⟨hr, by rw [h0]; rfl, by rw [h1]; rfl, fun _ => hl, ?_, ?_⟩
      · rintro (h | h | h) <;> simp at h
      · intro _
        exact ⟨h0, h1⟩
    · obtain ⟨hl, hr, h0, h1, h2⟩ := sigStrncasecmp_spec hs
      refine ⟨hr, by rw [h0]; rfl, by rw [h1]; rfl, ?_,
        fun _ => ⟨hl, h2⟩, fun _ => ⟨h0, h1⟩⟩
      rintro (h | h) <;> simp at h
    · exact absurd rfl hkm

/-- A declared memcmp whose two data parameters are pointers to different
pointee types. -/
def ftMemcmpMixed : FunType :=
  ⟨.int 32, [.pointer (.int 32), .pointer (.int 8), .int 64]⟩

def cMemcmpMixed : CallInst :=
  ⟨some ("memcmp", ftMemcmpMixed), true, ⟨11, none, none⟩, ⟨12, none, none⟩,
   some 4⟩

/-- Counterexample to claim C5 as stated: a memcmp declaration whose two
data parameters are pointer-typed but not of identical pointer type is still
classified as a candidate - the source checks the two memcmp parameters only
with isPointerTy and never compares them - contradicting the claim that every
comparison candidate requires two data parameters of identical pointer
type. -/
theorem claim_c5_counterexample :
    classify cMemcmpMixed = some Kind.memcmp ∧
    ftMemcmpMixed.params.getD 0 dTy ≠ ftMemcmpMixed.params.getD 1 dTy := by
  decide

theorem claim_c5_witness :
    classify (⟨none, true, opVar, opVar, none⟩ : CallInst) = none ∧
    classify (⟨some ("strcmp", ftStrcmp2), false, opAbc, opVar, none⟩ :
      CallInst) = none ∧
    ftStrcmp2.ret.isInt32 = true ∧
    (ftStrcmp2.params.getD 0 dTy).isPointerTy = true :=
  ⟨claim_c5_signature_gate.1 _ rfl,
   claim_c5_signature_gate.2.1 _ rfl,
   (claim_c5_signature_gate.2.2 cmpAbc "strcmp" ftStrcmp2 Kind.strcmp rfl
      (by decide) (by decide)).1,
   (claim_c5_signature_gate.2.2 cmpAbc "strcmp" ftStrcmp2 Kind.strcmp rfl
      (by decide) (by decide)).2.1⟩
